import Mathlib

/-!
Verification of the CLI-output parsers of the DevCopilot VS Code extension:
`parseSearchOutput` and `parseRagOutput` from `src/cliIntegration.ts` and
`_parsePRSummary` from `src/webview/resultsViewProvider.ts`.

Strings are modelled as `List Char` (one `Char` per Unicode scalar value).
Each JavaScript regular expression used by the source is translated into a
dedicated matching function; the analysis notes next to each matcher explain
why the deterministic maximal-munch / lazy-scan implementation coincides with
the backtracking behaviour of the JS engine on the pattern in question.
-/

namespace DevCopilot

abbrev Line := List Char

/-- JS whitespace (`\s`, `String.prototype.trim`): space, tab, LF, CR, VT, FF,
NBSP, BOM and the Unicode line separators.  (Other exotic `Zs` code points do
not occur in any input considered here.) -/
def wsB (c : Char) : Bool :=
  c == ' ' || c == '\t' || c == '\n' || c == '\r' || c == '\x0b' ||
  c == '\x0c' || c.toNat == 0xA0 || c.toNat == 0x2028 || c.toNat == 0x2029 ||
  c.toNat == 0xFEFF

/-- JS `.` (dot) in a regex without the `s` flag: any char except line
terminators. -/
def dotB (c : Char) : Bool :=
  !(c == '\n' || c == '\r' || c.toNat == 0x2028 || c.toNat == 0x2029)

def isDigitB (c : Char) : Bool := '0' ≤ c && c ≤ '9'

/-- `\w` = `[A-Za-z0-9_]`. -/
def isWordB (c : Char) : Bool :=
  ('a' ≤ c && c ≤ 'z') || ('A' ≤ c && c ≤ 'Z') || isDigitB c || c == '_'

/-- lowercase hex digit, for `[0-9a-f]`. -/
def isHexLowerB (c : Char) : Bool := isDigitB c || ('a' ≤ c && c ≤ 'f')

/-- `l` starts with `p` (JS `startsWith`, and literal prefixes in regexes). -/
def startsWithB : List Char → List Char → Bool
  | [], _ => true
  | _ :: _, [] => false
  | p :: ps, c :: cs => p == c && startsWithB ps cs

/-- `l` contains `p` as a contiguous subsequence (JS `includes`, unanchored
regex literal search). -/
def containsSeq (p : List Char) : List Char → Bool
  | [] => startsWithB p []
  | c :: cs => startsWithB p (c :: cs) || containsSeq p cs

/-- Try a matcher at every suffix, leftmost first: the leftmost-match rule of
JS `String.prototype.match` for an unanchored regex.  (None of the patterns
used here can match the empty string, so the final empty suffix is not
tried.) -/
def scanFirst (f : List Char → Option α) : List Char → Option α
  | [] => none
  | c :: cs => (f (c :: cs)).orElse fun _ => scanFirst f cs

/-- left trim, JS style. -/
def ltrimWs (l : List Char) : List Char := l.dropWhile wsB

/-- right trim, JS style. -/
def rtrimWs (l : List Char) : List Char := (l.reverse.dropWhile wsB).reverse

/-- JS `String.prototype.trim`. -/
def trimWs (l : List Char) : List Char := rtrimWs (ltrimWs l)

/-- drop a maximal trailing run of characters satisfying `p`
(`replace(/[...]+$/, '')` for a character class). -/
def rdropClass (p : Char → Bool) (l : List Char) : List Char :=
  (l.reverse.dropWhile p).reverse

/-- `split('\n')`: always returns at least one (possibly empty) piece. -/
def splitNL : List Char → List (List Char)
  | [] => [[]]
  | c :: t =>
    if c = '\n' then [] :: splitNL t
    else
      match splitNL t with
      | [] => [[c]]
      | h :: r => (c :: h) :: r

def digitsToNat (l : List Char) : Nat :=
  l.foldl (fun n c => 10 * n + (c.toNat - '0'.toNat)) 0

/-- JS `parseFloat` restricted to the tokens produced by a `[\d.]+` capture
(digits and dots only, nonempty).  `parseFloat` reads the longest prefix of
the form `digits`, `digits.digits` or `.digits`; a token containing no digit
before the second dot position (like `"."` or `".."`) yields `NaN`, modelled
as `none`. -/
def parseFloatTok (t : List Char) : Option ℚ :=
  let ip := t.takeWhile isDigitB
  let r := t.drop ip.length
  match r with
  | '.' :: r2 =>
    let fp := r2.takeWhile isDigitB
    if ip.isEmpty && fp.isEmpty then none
    else some ((digitsToNat ip : ℚ) + (digitsToNat fp : ℚ) / (10 : ℚ) ^ fp.length)
  | _ => if ip.isEmpty then none else some (digitsToNat ip : ℚ)

/-- JS `parseInt` (radix unspecified) applied to an already-trimmed string:
optional sign, then either a `0x`/`0X` hexadecimal numeral or a decimal digit
run; `NaN` (here `none`) when no digit is found. -/
def parseIntJs (t : List Char) : Option Int :=
  let (sign, r) :=
    match t with
    | '-' :: r => ((-1 : Int), r)
    | '+' :: r => ((1 : Int), r)
    | r => ((1 : Int), r)
  match r with
  | '0' :: x :: r2 =>
    if x = 'x' ∨ x = 'X' then
      let h := r2.takeWhile (fun c => isDigitB c || ('a' ≤ c && c ≤ 'f') || ('A' ≤ c && c ≤ 'F'))
      if h.isEmpty then none
      else some (sign * (h.foldl (fun n c =>
        16 * n + (if isDigitB c then c.toNat - '0'.toNat
                  else if 'a' ≤ c then c.toNat - 'a'.toNat + 10
                  else c.toNat - 'A'.toNat + 10)) 0 : Nat))
    else some (sign * (digitsToNat (('0' :: x :: r2).takeWhile isDigitB) : Nat))
  | _ =>
    let d := r.takeWhile isDigitB
    if d.isEmpty then none else some (sign * (digitsToNat d : Nat))

/-- `parseInt(x) || 0`: `NaN` collapses to `0`. -/
def orZero : Option Int → Int
  | none => 0
  | some v => v

/-! ### Regex building blocks

Each matcher below follows the backtracking semantics of the corresponding JS
regex.  For the patterns in this file, greedy pieces (`\d+`, `\s+`, `\s*`,
`[─]+`, `[\d.]+`, `\w+`) are always followed by a piece that cannot match any
character the greedy piece accepts, so maximal munch is complete (shrinking
the greedy run can never create a match that the maximal run missed).  Lazy
groups `(.+?)` are implemented by growing one character at a time and testing
the continuation, exactly the engine's order.  The one genuine backtracking
case — `\s+`/`\s*` giving up trailing whitespace to a following `(.+?)`/`(.+)`
group when the group cannot otherwise match — is handled explicitly where the
source can observe it. -/

/-- consume at least one `\s` character, maximal munch (`\s+`). -/
def ws1 (l : List Char) : Option (List Char) :=
  match l with
  | c :: cs => if wsB c then some (cs.dropWhile wsB) else none
  | [] => none

/-- consume a literal string. -/
def lit (p : List Char) (l : List Char) : Option (List Char) :=
  if startsWithB p l then some (l.drop p.length) else none

/-- consume a maximal nonempty digit run (`\d+`), returning it and the rest. -/
def digits1 (l : List Char) : Option (List Char × List Char) :=
  let d := l.takeWhile isDigitB
  if d.isEmpty then none else some (d, l.drop d.length)

/-- `:(\d+)-(\d+)` at the head of the input. -/
def colonNumsAt : List Char → Option (Nat × Nat)
  | ':' :: ds =>
    match digits1 ds with
    | some (d1, '-' :: ds2) =>
      match digits1 ds2 with
      | some (d2, _) => some (digitsToNat d1, digitsToNat d2)
      | none => none
    | _ => none
  | _ => none

/-- lazy `(.+?):(\d+)-(\d+)`: grow the group one dot-char at a time; after
each character test whether the `:<digits>-<digits>` continuation starts
here. -/
def lazyColonNums (acc : List Char) : List Char → Option (List Char × Nat × Nat)
  | [] => none
  | c :: cs =>
    if dotB c then
      match colonNumsAt cs with
      | some (a, b) => some (acc ++ [c], a, b)
      | none => lazyColonNums (acc ++ [c]) cs
    else none

/-! ### `parseSearchOutput` matchers (src/cliIntegration.ts) -/

/-- `/(\d+)\.\s+(FUNCTION|CLASS):\s+(\w+)/` tried at the head of the input;
returns (kind capture, name capture). -/
def headerMatchAt (l : List Char) : Option (List Char × List Char) := do
  let (_, r1) ← digits1 l
  let r2 ← lit ['.'] r1
  let r3 ← ws1 r2
  let (kind, r4) ←
    if startsWithB "FUNCTION".data r3 then
      some ("FUNCTION".data, r3.drop 8)
    else if startsWithB "CLASS".data r3 then
      some ("CLASS".data, r3.drop 5)
    else none
  let r5 ← lit [':'] r4
  let r6 ← ws1 r5
  let w := r6.takeWhile isWordB
  if w.isEmpty then none else some (kind, w)

def headerMatchFn : Line → Option (List Char × List Char) :=
  scanFirst headerMatchAt

/-- `/📄\s+(.+?):(\d+)-(\d+)/` tried at the head of the input.  When the lazy
group cannot match starting at the first non-space character, the engine
backtracks `\s+` by one and matches a single-whitespace group, provided the
whitespace run has ≥ 2 characters and the `:<digits>-<digits>` continuation
starts right after it. -/
def fileMatchAt (l : List Char) : Option (List Char × Nat × Nat) :=
  match l with
  | '📄' :: cs =>
    match cs with
    | c0 :: _ =>
      if wsB c0 then
        let w := cs.takeWhile wsB
        let rest := cs.drop w.length
        match lazyColonNums [] rest with
        | some r => some r
        | none =>
          if 2 ≤ w.length then
            match colonNumsAt rest with
            | some (a, b) => some ([w.getLastD ' '], a, b)
            | none => none
          else none
      else none
    | [] => none
  | _ => none

def fileMatchFn : Line → Option (List Char × Nat × Nat) :=
  scanFirst fileMatchAt

/-- `/📊\s+Similarity:\s+([\d.]+)/` tried at the head of the input; returns
the numeric token. -/
def simMatchAt (l : List Char) : Option (List Char) :=
  match l with
  | '📊' :: cs => do
    let r1 ← ws1 cs
    let r2 ← lit "Similarity:".data r1
    let r3 ← ws1 r2
    let tok := r3.takeWhile fun c => isDigitB c || c == '.'
    if tok.isEmpty then none else some tok
  | _ => none

def simMatchFn : Line → Option (List Char) :=
  scanFirst simMatchAt

/-- `/📝\s+(.+)/` tried at the head of the input.  The greedy group takes the
whole remainder after the whitespace run; when nothing follows the run, the
engine backtracks `\s+` by one and captures a single whitespace character
(the caller has removed every CR from the line, so the run never contains a
line terminator). -/
def docMatchAt (l : List Char) : Option (List Char) :=
  match l with
  | '📝' :: cs =>
    match cs with
    | c0 :: _ =>
      if wsB c0 then
        let w := cs.takeWhile wsB
        let rest := cs.drop w.length
        if rest.isEmpty then
          if 2 ≤ w.length && dotB (w.getLastD ' ') then some [w.getLastD ' ']
          else none
        else some (rest.takeWhile dotB)
      else none
    | [] => none
  | _ => none

def docMatchFn : Line → Option (List Char) :=
  scanFirst docMatchAt

/-- trailing-decoration class `[│└┘]` used by the cleanups in
`parseSearchOutput`. -/
def boxTailClass (c : Char) : Bool := c == '│' || c == '└' || c == '┘'

/-- `x.trim().replace(/[│└┘]+$/g, '').trim()`. -/
def cleanCapture (p : List Char) : List Char :=
  trimWs (rdropClass boxTailClass (trimWs p))

def lowerStr (l : List Char) : List Char := l.map Char.toLower

/-! ### `parseSearchOutput` -/

structure SearchResult where
  type : String
  name : String
  file_path : Option String := none
  start_line : Option Nat := none
  end_line : Option Nat := none
  /-- a JS number: `none` is `NaN` (possible, since `parseFloat(".")` is
  `NaN`), `some q` an ordinary value. -/
  similarity : Option (Option ℚ) := none
  docstring : Option String := none
deriving Repr, DecidableEq

structure SState where
  results : List SearchResult
  current : Option SearchResult
deriving Repr, DecidableEq

/-- one iteration of the `parseSearchOutput` line loop. -/
def searchStep (st : SState) (line : Line) : SState :=
  match headerMatchFn line with
  | some (kind, name) =>
    { results := st.results ++ st.current.toList
      current := some { type := String.mk (lowerStr kind), name := String.mk name } }
  | none =>
    match st.current with
    | none => st
    | some cur =>
      match fileMatchFn line with
      | some (p, a, b) =>
        { st with current := some { cur with
            file_path := some (String.mk (cleanCapture p))
            start_line := some a
            end_line := some b } }
      | none =>
        match simMatchFn line with
        | some tok =>
          { st with current := some { cur with similarity := some (parseFloatTok tok) } }
        | none =>
          match docMatchFn line with
          | some d =>
            { st with current := some { cur with docstring := some (String.mk (cleanCapture d)) } }
          | none => st

/-- `output.replace(/\r/g, '').split('\n')`. -/
def searchLines (s : String) : List Line :=
  splitNL (s.data.filter fun c => c ≠ '\r')

/-- `parseSearchOutput` (cliIntegration.ts, lines 209–270). -/
def parseSearchOutput (s : String) : List SearchResult :=
  let st := (searchLines s).foldl searchStep ⟨[], none⟩
  st.results ++ st.current.toList

/-! ### `parseRagOutput` matchers -/

/-- lazy `(.+?)` followed by `\s*│`: grow the group one dot-char at a time
and test the continuation. -/
def lazyUntilBar (acc : List Char) : List Char → Option (List Char)
  | [] => none
  | c :: cs =>
    if dotB c then
      let acc' := acc ++ [c]
      if (cs.dropWhile wsB).headD ' ' == '│' then some acc' else lazyUntilBar acc' cs
    else none

/-- `/│\s*📄\s*(.+?)\s*│/` tried at the head of the input.  When the lazy
group cannot match from the first non-space position, the engine backtracks
the second `\s*` and captures a single whitespace character, provided the run
is nonempty and the closing bar follows it immediately. -/
def pathMatchAt (l : List Char) : Option (List Char) :=
  match l with
  | '│' :: r0 =>
    match r0.dropWhile wsB with
    | '📄' :: r2 =>
      let w := r2.takeWhile wsB
      let rest := r2.drop w.length
      match lazyUntilBar [] rest with
      | some g => some g
      | none =>
        if 1 ≤ w.length && rest.headD ' ' == '│' then some [w.getLastD ' ']
        else none
    | _ => none
  | _ => none

/-- `/│\s*(.+?)\s*│/` tried at the head of the input (same backtracking note
as `pathMatchAt`). -/
def pathLineMatchAt (l : List Char) : Option (List Char) :=
  match l with
  | '│' :: r0 =>
    let w := r0.takeWhile wsB
    let rest := r0.drop w.length
    match lazyUntilBar [] rest with
    | some g => some g
    | none =>
      if 1 ≤ w.length && rest.headD ' ' == '│' then some [w.getLastD ' ']
      else none
  | _ => none

/-- `/│\s*📊\s+Similarity:\s+([\d.]+)\s*│/` tried at the head of the input. -/
def ragSimMatchAt (l : List Char) : Option (List Char) :=
  match l with
  | '│' :: r0 =>
    match r0.dropWhile wsB with
    | '📊' :: r2 => do
      let r3 ← ws1 r2
      let r4 ← lit "Similarity:".data r3
      let r5 ← ws1 r4
      let tok := r5.takeWhile fun c => isDigitB c || c == '.'
      if tok.isEmpty then none
      else if ((r5.drop tok.length).dropWhile wsB).headD ' ' == '│' then some tok
      else none
    | _ => none
  | _ => none

def ragSimMatchFn : Line → Option (List Char) := scanFirst ragSimMatchAt

/-- `/│\s*📝\s+(.+?)\s*│/` tried at the head of the input; the `\s+` after
the glyph backtracks down to one character when the group cannot otherwise
match (run length ≥ 2 and closing bar right after the run). -/
def ragDocMatchAt (l : List Char) : Option (List Char) :=
  match l with
  | '│' :: r0 =>
    match r0.dropWhile wsB with
    | '📝' :: r2 =>
      match r2 with
      | c0 :: _ =>
        if wsB c0 then
          let w := r2.takeWhile wsB
          let rest := r2.drop w.length
          match lazyUntilBar [] rest with
          | some g => some g
          | none =>
            if 2 ≤ w.length && rest.headD ' ' == '│' then some [w.getLastD ' ']
            else none
        else none
      | [] => none
    | _ => none
  | _ => none

def ragDocMatchFn : Line → Option (List Char) := scanFirst ragDocMatchAt

/-- `[─]+┐` at the head of the input (the tail of the box-header pattern). -/
def dashCloseB (l : List Char) : Bool :=
  let d := l.takeWhile (· == '─')
  !d.isEmpty && (l.drop d.length).headD ' ' == '┐'

/-- `\s+[─]+┐` at the head of the input. -/
def nameTailB (l : List Char) : Bool :=
  (match l with | c :: _ => wsB c | [] => false) && dashCloseB (l.dropWhile wsB)

/-- lazy name group of the box-header pattern: grow and test `\s+[─]+┐`. -/
def lazyName (acc : List Char) : List Char → Option (List Char)
  | [] => none
  | c :: cs =>
    if dotB c then
      let acc' := acc ++ [c]
      if nameTailB cs then some acc' else lazyName acc' cs
    else none

/-- `/^┌[─]+\s*(\d+)\.\s+(FUNCTION|CLASS):\s+(.+?)\s+[─]+┐/` (anchored);
returns (kind capture, name capture). -/
def boxStartFn (l : Line) : Option (List Char × List Char) :=
  match l with
  | '┌' :: r0 =>
    let d := r0.takeWhile (· == '─')
    if d.isEmpty then none
    else
      (do
        let r1 := (r0.drop d.length).dropWhile wsB
        let (_, r2) ← digits1 r1
        let r3 ← lit ['.'] r2
        let r4 ← ws1 r3
        let (kind, r5) ←
          if startsWithB "FUNCTION".data r4 then some ("FUNCTION".data, r4.drop 8)
          else if startsWithB "CLASS".data r4 then some ("CLASS".data, r4.drop 5)
          else none
        let r6 ← lit [':'] r5
        match r6 with
        | c0 :: _ =>
          if wsB c0 then
            let w := r6.takeWhile wsB
            let rest := r6.drop w.length
            match lazyName [] rest with
            | some g => some (kind, g)
            | none =>
              if 2 ≤ w.length && dashCloseB rest then some (kind, [w.getLastD ' '])
              else none
          else none
        | [] => none)
  | _ => none

/-- `/^└[─]+┘/`. -/
def bottomBorderB (l : Line) : Bool :=
  match l with
  | c :: r =>
    c == '└' &&
      (let d := r.takeWhile (· == '─')
       !d.isEmpty && (r.drop d.length).headD ' ' == '┘')
  | [] => false

/-- `/^┌[─]+/`. -/
def boxTopPrefixB (l : Line) : Bool :=
  match l with
  | a :: c :: _ => a == '┌' && c == '─'
  | _ => false

/-- the class `[─┌┐└┘]` (note: no `│`). -/
def borderClassB (c : Char) : Bool :=
  c == '─' || c == '┌' || c == '┐' || c == '└' || c == '┘'

/-- `/^[─┌┐└┘]+$/`. -/
def pureBorderB (l : List Char) : Bool := !l.isEmpty && l.all borderClassB

/-- `replace(/^│\s*/, '')`. -/
def stripLeadBar (l : List Char) : List Char :=
  match l with
  | c :: r => if c = '│' then r.dropWhile wsB else l
  | [] => []

/-- `replace(/\s*│$/, '')`. -/
def stripTrailBar (l : List Char) : List Char :=
  match l.reverse with
  | c :: r => if c = '│' then (r.dropWhile wsB).reverse else l
  | [] => l

/-! ### `parseRagOutput` -/

structure RagSource where
  type : String
  name : String
  file_path : Option String := none
  start_line : Option Nat := none
  end_line : Option Nat := none
  similarity : Option (Option ℚ) := none
  docstring : Option String := none
  code_snippet : Option String := none
deriving Repr, DecidableEq

structure RState where
  answer : List Char
  sources : List RagSource
  currentSource : Option RagSource
  inAnswerSection : Bool
  inSourcesSection : Bool
  inSourceBox : Bool
  collectingCode : Bool
  codeLines : List Line
  collectingFilePath : Bool
  filePathLines : List (List Char)
deriving Repr, DecidableEq

/-- attach the pending code lines to a source record
(`codeLines.join('\n')`, only when nonempty). -/
def attachCode (src : RagSource) (codeLines : List Line) : RagSource :=
  if codeLines.isEmpty then src
  else { src with code_snippet := some (String.mk (List.intercalate ['\n'] codeLines)) }

/-- the flush performed when a new source box opens while code was being
collected (cliIntegration.ts lines 318–326). -/
def flushOnBoxStart (st : RState) : RState :=
  match st.currentSource, st.collectingCode with
  | some cur, true =>
    { st with sources := st.sources ++ [attachCode cur st.codeLines]
              codeLines := [], collectingCode := false }
  | _, _ => st

/-- The `if (inSourcesSection) { ... }` block of the `parseRagOutput` loop
body (cliIntegration.ts lines 314–425).  Returns `some (st', retry)` where
`retry = true` models `i--; continue` (the same line is reprocessed next);
`none` models the JS `TypeError` that the unguarded
`currentSource.file_path` assignment (line 367) would raise if the parser
were inside a source box with no open record — `parseRagOutputRaw_isSome`
below shows this never happens. -/
def ragSourcesStep (st : RState) (line : Line) (trimmed : List Char) :
    Option (RState × Bool) :=
  match boxStartFn line with
    | some (kind, name) =>
      let st' := flushOnBoxStart st
      some ({ st' with
        currentSource := some { type := String.mk (lowerStr kind)
                                name := String.mk (trimWs name) }
        inSourceBox := true
        collectingFilePath := false
        filePathLines := [] }, false)
    | none =>
      if st.inSourceBox then
        if containsSeq "📄".data line && !st.collectingFilePath then
          let fpl :=
            match scanFirst pathMatchAt line with
            | some content =>
              let c := trimWs content
              if c.isEmpty then [] else [c]
            | none => []
          some ({ st with collectingFilePath := true
                          filePathLines := st.filePathLines ++ fpl }, false)
        else if st.collectingFilePath then
          match scanFirst pathLineMatchAt line with
          | some content =>
            let c := trimWs content
            if !c.isEmpty && !pureBorderB c && !containsSeq "📊".data c
                && !containsSeq "📝".data c then
              let fpl := st.filePathLines ++ [c]
              let full := fpl.foldl (· ++ ·) []
              match scanFirst (lazyColonNums []) full with
              | some (p, a, b) =>
                match st.currentSource with
                | some cur =>
                  some ({ st with
                    currentSource := some { cur with
                      file_path := some (String.mk (trimWs p))
                      start_line := some a
                      end_line := some b }
                    collectingFilePath := false
                    filePathLines := [] }, false)
                | none => none
              | none => some ({ st with filePathLines := fpl }, false)
            else some (st, false)
          | none => some (st, false)
        else
          match ragSimMatchFn line, st.currentSource with
          | some tok, some cur =>
            some ({ st with
              currentSource := some { cur with similarity := some (parseFloatTok tok) } }, false)
          | _, _ =>
            match ragDocMatchFn line, st.currentSource with
            | some d, some cur =>
              some ({ st with
                currentSource := some { cur with docstring := some (String.mk (trimWs d)) } }, false)
            | _, _ =>
              if bottomBorderB line then
                some ({ st with inSourceBox := false, collectingCode := true
                                collectingFilePath := false }, false)
              else some (st, false)
      else if st.collectingCode then
        if boxTopPrefixB line then
          match st.currentSource with
          | some cur =>
            some ({ st with
              sources := st.sources ++ [attachCode cur st.codeLines]
              codeLines := [], collectingCode := false
              currentSource := none }, true)
          | none => some (st, true)
        else if trimmed.isEmpty && !st.codeLines.isEmpty then some (st, false)
        else if !trimmed.isEmpty then
          some ({ st with codeLines := st.codeLines ++ [line] }, false)
        else some (st, false)
      else some (st, false)

/-- One iteration of the `parseRagOutput` loop body on line `i`
(cliIntegration.ts lines 286–442). -/
def ragIter (st : RState) (line : Line) : Option (RState × Bool) :=
  let trimmed := trimWs line
  if trimmed.isEmpty && !st.collectingCode then some (st, false)
  else if (containsSeq "💡".data trimmed || containsSeq "Answer:".data trimmed)
      && !st.inSourcesSection then
    some ({ st with inAnswerSection := true }, false)
  else if startsWithB "Code Search - RAG Mode Query:".data trimmed
      || startsWithB "Query:".data trimmed then
    some (st, false)
  else if containsSeq "Supporting Sources".data trimmed then
    some ({ st with inAnswerSection := false, inSourcesSection := true }, false)
  else if st.inSourcesSection then
    ragSourcesStep st line trimmed
  else if st.inAnswerSection && !st.inSourcesSection then
    let content := trimWs (stripTrailBar (stripLeadBar line))
    let st' :=
      if !content.isEmpty && !pureBorderB content && content ≠ "Answer:".data then
        { st with answer := st.answer ++ content ++ [' '] }
      else st
    let st'' := if bottomBorderB line then { st' with inAnswerSection := false } else st'
    some (st'', false)
  else some (st, false)

/-- the `for` loop of `parseRagOutput`, with an explicit iteration budget:
each iteration handles one line or one `i--` pushback. -/
def ragLoop : Nat → RState → List Line → Option RState
  | _, st, [] => some st
  | 0, _, _ :: _ => none
  | fuel + 1, st, line :: rest =>
    match ragIter st line with
    | none => none
    | some (st', false) => ragLoop fuel st' rest
    | some (st', true) => ragLoop fuel st' (line :: rest)

structure RagAnswer where
  answer : String
  sources : List RagSource
deriving Repr, DecidableEq

/-- end-of-loop flush and answer cleanup (cliIntegration.ts lines 444–455):
the final open source is kept only when `currentSource.file_path` is truthy,
i.e. present and nonempty. -/
def ragFinalize (st : RState) : RagAnswer :=
  let sources :=
    match st.currentSource with
    | some cur =>
      match cur.file_path with
      | some p => if p ≠ "" then st.sources ++ [attachCode cur st.codeLines] else st.sources
      | none => st.sources
    | none => st.sources
  { answer := String.mk (trimWs st.answer), sources := sources }

def initRState : RState :=
  { answer := [], sources := [], currentSource := none, inAnswerSection := false
    inSourcesSection := false, inSourceBox := false, collectingCode := false
    codeLines := [], collectingFilePath := false, filePathLines := [] }

def ragLines (s : String) : List Line :=
  splitNL (s.data.filter fun c => c ≠ '\r')

/-- `parseRagOutput` with the loop's partiality made explicit: the budget
`2·|lines| + 2` covers one iteration per line plus one pushback per line, and
`none` models the failure modes a literal transcription of the JS loop could
exhibit (divergence of the index manipulation; the unguarded property write).
`parseRagOutputRaw_isSome` proves neither occurs, for any input. -/
def parseRagOutputRaw (s : String) : Option RagAnswer :=
  let lines := ragLines s
  (ragLoop (2 * lines.length + 2) initRState lines).map ragFinalize

/-- `parseRagOutput` (cliIntegration.ts, lines 272–456). -/
def parseRagOutput (s : String) : RagAnswer :=
  (parseRagOutputRaw s).getD { answer := "", sources := [] }

/-! ### `_parsePRSummary` matchers (src/webview/resultsViewProvider.ts) -/

/-- `/^=+$/`. -/
def eqRunB (l : List Char) : Bool := !l.isEmpty && l.all (· == '=')

/-- the pattern `^•\s+[0-9a-f]{8}\s+-` : bullet, whitespace, exactly eight
lowercase hex digits, whitespace, dash. -/
def commitBulletB (l : List Char) : Bool :=
  match l with
  | b :: r =>
    b == '•' &&
    (match r with | c :: _ => wsB c | [] => false) &&
    (let r1 := r.dropWhile wsB
     let h := r1.take 8
     decide (h.length = 8) && h.all isHexLowerB &&
     (match r1.drop 8 with
      | c :: _ => wsB c && ((r1.drop 8).dropWhile wsB).headD ' ' == '-'
      | [] => false))
  | [] => false

/-- `\s+[─]*┐`-style continuation used by the file-change box-top test:
at least one whitespace char, then a (possibly empty) dash run, then `┐`. -/
def wsDashCloseB (l : List Char) : Bool :=
  (match l with | c :: _ => wsB c | [] => false) &&
  (let r := l.dropWhile wsB
   ((r.dropWhile (· == '─')).headD ' ') == '┐')

/-- `(.+?)\s+[─]*┐` with the group start fixed at the head: the group grows
one dot-char at a time. -/
def groupSearchB : List Char → Bool
  | [] => false
  | c :: cs => dotB c && (wsDashCloseB cs || groupSearchB cs)

/-- `\s+(.+?)\s+[─]*┐`: the leading `\s+` consumes `j ≥ 1` whitespace chars,
tried for every `j` (the group may begin inside the whitespace run, since a
whitespace char that is not a line terminator is matched by `.`). -/
def wsStartsLoopB : List Char → Bool
  | [] => false
  | c :: cs => wsB c && (groupSearchB cs || wsStartsLoopB cs)

/-- scan for the `🔹` of `/^┌.*🔹\s+(.+?)\s+─*┐/`: `.*` ranges over dot-chars,
and the pattern matches if any reachable `🔹` admits the continuation. -/
def boxTopFileScanB : List Char → Bool
  | [] => false
  | c :: cs => (c == '🔹' && wsStartsLoopB cs) || (dotB c && boxTopFileScanB cs)

/-- `/^┌.*🔹\s+(.+?)\s+─*┐/` as a boolean test (the source only uses it as
one). -/
def boxTopFileB (l : List Char) : Bool :=
  match l with
  | c :: r => c == '┌' && boxTopFileScanB r
  | [] => false

/-- `\s+─` continuation of the filename capture. -/
def wsDashTailB (l : List Char) : Bool :=
  (match l with | c :: _ => wsB c | [] => false) &&
  (l.dropWhile wsB).headD ' ' == '─'

/-- lazy group growing toward a `\s+─` continuation. -/
def lazyUntilWsDash (acc : List Char) : List Char → Option (List Char)
  | [] => none
  | c :: cs =>
    if dotB c then
      let acc' := acc ++ [c]
      if wsDashTailB cs then some acc' else lazyUntilWsDash acc' cs
    else none

/-- `/🔹\s+(.+?)\s+─/` tried at the head of the input (filename capture;
leftmost `🔹` wins).  When the group cannot match from the first non-space
position the engine backtracks `\s+` down to leave a one-whitespace group
followed by at least one whitespace and the dash: possible when the run has
≥ 3 characters and the dash follows it immediately. -/
def prFileNameAt (l : List Char) : Option (List Char) :=
  match l with
  | '🔹' :: cs =>
    match cs with
    | c0 :: _ =>
      if wsB c0 then
        let w := cs.takeWhile wsB
        let rest := cs.drop w.length
        match lazyUntilWsDash [] rest with
        | some g => some g
        | none =>
          if 3 ≤ w.length && rest.headD ' ' == '─' then
            some [(w.drop (w.length - 2)).headD ' ']
          else none
      else none
    | [] => none
  | _ => none

/-- `/^\[\d+\/\d+\]/`. -/
def progressTagB (l : List Char) : Bool :=
  match l with
  | c :: r =>
    c == '[' &&
      (match digits1 r with
       | some (_, '/' :: r2) =>
         match digits1 r2 with
         | some (_, ']' :: _) => true
         | _ => false
       | _ => false)
  | [] => false

/-- the class `[┌└─│]` of the overall-summary filter (note: no `┐`/`┘`). -/
def prBoxClassB (c : Char) : Bool :=
  c == '┌' || c == '└' || c == '─' || c == '│'

/-- `/^[┌└─│]+$/`. -/
def pureBoxPRB (l : List Char) : Bool := !l.isEmpty && l.all prBoxClassB

/-! ### `_parsePRSummary` -/

structure FileChange where
  filename : String
  content : String
deriving Repr, DecidableEq

inductive PRSection where
  | header | fileChange | between | overallSummary | pipeline
deriving Repr, DecidableEq

structure PRState where
  branch : List Char
  commits : Int
  changedFiles : Int
  commitHistory : List (List Char)
  fileChanges : List FileChange
  overallSummary : List Char
  pipelineInfo : List Char
  warnings : List (List Char)
  currentSection : PRSection
  /-- filename of the open file-change card, if any. -/
  currentFileChange : Option (List Char)
  fileChangeContent : List Char
deriving Repr, DecidableEq

/-- one iteration of the `_parsePRSummary` line loop
(resultsViewProvider.ts lines 665–742). -/
def prStep (st : PRState) (line : Line) : PRState :=
  let trimmed := trimWs line
  if trimmed.isEmpty || eqRunB trimmed then st
  else if startsWithB "Branch:".data trimmed then
    { st with branch := trimWs (trimmed.drop 7) }
  else if startsWithB "Commits:".data trimmed then
    { st with commits := orZero (parseIntJs (trimWs (trimmed.drop 8))) }
  else if startsWithB "Changed files:".data trimmed then
    { st with changedFiles := orZero (parseIntJs (trimWs (trimmed.drop 14))) }
  else if commitBulletB trimmed then
    { st with commitHistory := st.commitHistory ++ [trimmed] }
  else if boxTopFileB trimmed then
    let st' :=
      match st.currentFileChange with
      | some fn =>
        let card : FileChange :=
          { filename := String.mk fn, content := String.mk (trimWs st.fileChangeContent) }
        { st with fileChanges := st.fileChanges ++ [card] }
      | none => st
    let filename :=
      match scanFirst prFileNameAt trimmed with
      | some f => trimWs f
      | none => "Unknown file".data
    { st' with currentFileChange := some filename, fileChangeContent := []
               currentSection := PRSection.fileChange }
  else if st.currentSection = PRSection.fileChange ∧ line.headD ' ' = '│' then
    let content := trimWs (stripTrailBar (stripLeadBar line))
    if content.isEmpty then st
    else { st with fileChangeContent := st.fileChangeContent ++ content ++ [' '] }
  else if st.currentSection = PRSection.fileChange ∧ line.headD ' ' = '└' then
    let st' :=
      match st.currentFileChange with
      | some fn =>
        let card : FileChange :=
          { filename := String.mk fn, content := String.mk (trimWs st.fileChangeContent) }
        { st with fileChanges := st.fileChanges ++ [card]
                  currentFileChange := none
                  fileChangeContent := [] }
      | none => st
    { st' with currentSection := PRSection.between }
  else if startsWithB "📝 Overall PR Summary:".data trimmed then
    { st with currentSection := PRSection.overallSummary }
  else if st.currentSection = PRSection.overallSummary ∧ trimmed ≠ [] ∧
      pureBoxPRB trimmed = false then
    { st with overallSummary := st.overallSummary ++ trimmed ++ [' '] }
  else if containsSeq "PR SUMMARIZATION PIPELINE".data trimmed ∨
      progressTagB trimmed = true then
    { st with currentSection := PRSection.pipeline
              pipelineInfo := st.pipelineInfo ++ trimmed ++ ['\n'] }
  else if st.currentSection = PRSection.pipeline then
    { st with pipelineInfo := st.pipelineInfo ++ trimmed ++ ['\n'] }
  else if startsWithB "⚠️".data trimmed then
    { st with warnings := st.warnings ++ [trimmed] }
  else st

structure PRSummary where
  branch : String
  commits : Int
  changedFiles : Int
  commitHistory : List String
  fileChanges : List FileChange
  overallSummary : String
  pipelineInfo : String
  warnings : List String
deriving Repr, DecidableEq

def initPRState : PRState :=
  { branch := [], commits := 0, changedFiles := 0, commitHistory := []
    fileChanges := [], overallSummary := [], pipelineInfo := [], warnings := []
    currentSection := PRSection.header, currentFileChange := none
    fileChangeContent := [] }

/-- `_parsePRSummary` (resultsViewProvider.ts, lines 650–749).  Note: this
parser splits on `'\n'` without stripping carriage returns first. -/
def parsePRSummary (s : String) : PRSummary :=
  let st := (splitNL s.data).foldl prStep initPRState
  { branch := String.mk st.branch
    commits := st.commits
    changedFiles := st.changedFiles
    commitHistory := st.commitHistory.map String.mk
    fileChanges := st.fileChanges
    overallSummary := String.mk (trimWs st.overallSummary)
    pipelineInfo := String.mk (trimWs st.pipelineInfo)
    warnings := st.warnings.map String.mk }

/-! ## Substring infrastructure

Lemmas about `startsWithB` / `containsSeq` used by the parser theorems. -/

theorem startsWithB_iff {p l : List Char} :
    startsWithB p l = true ↔ ∃ t, l = p ++ t := by
  induction p generalizing l with
  | nil => simp [startsWithB]
  | cons c cs ih =>
    cases l with
    | nil => simp [startsWithB]
    | cons d ds =>
      simp only [startsWithB, Bool.and_eq_true, beq_iff_eq, ih, List.cons_append,
        List.cons.injEq]
      constructor
      · rintro ⟨rfl, t, rfl⟩
        exact ⟨t, rfl, rfl⟩
      · rintro ⟨t, rfl, rfl⟩
        exact ⟨rfl, t, rfl⟩

theorem containsSeq_iff {p l : List Char} :
    containsSeq p l = true ↔ ∃ s t, l = s ++ p ++ t := by
  induction l with
  | nil =>
    constructor
    · intro h
      rcases startsWithB_iff.mp h with ⟨t, ht⟩
      exact ⟨[], t, by simpa using ht⟩
    · rintro ⟨s, t, h⟩
      rcases List.append_eq_nil.mp h.symm with ⟨h1, h2⟩
      rcases List.append_eq_nil.mp h1 with ⟨rfl, rfl⟩
      simpa [containsSeq] using startsWithB_iff.mpr ⟨t, by simpa using h⟩
  | cons c cs ih =>
    simp only [containsSeq, Bool.or_eq_true, startsWithB_iff, ih]
    constructor
    · rintro (⟨t, ht⟩ | ⟨s, t, rfl⟩)
      · exact ⟨[], t, by simpa using ht⟩
      · exact ⟨c :: s, t, rfl⟩
    · rintro ⟨s, t, h⟩
      cases s with
      | nil => exact Or.inl ⟨t, by simpa using h⟩
      | cons a as =>
        simp only [List.cons_append, List.cons.injEq, List.append_assoc] at h
        exact Or.inr ⟨as, t, by simp [h.2]⟩

theorem containsSeq_of_decomp {p a : List Char} (h : containsSeq p a = true)
    (u v : List Char) : containsSeq p (u ++ a ++ v) = true := by
  rcases containsSeq_iff.mp h with ⟨s, t, rfl⟩
  exact containsSeq_iff.mpr ⟨u ++ s, t ++ v, by simp⟩

theorem containsSeq_nil_left (l : List Char) : containsSeq [] l = true := by
  induction l with
  | nil => rfl
  | cons c cs ih => simp [containsSeq, startsWithB, ih]

theorem containsSeq_nil_false {p : List Char} (hp : p ≠ []) :
    containsSeq p [] = false := by
  cases p with
  | nil => exact absurd rfl hp
  | cons c cs => simp [containsSeq, startsWithB]

theorem containsSeq_dropWhile (q : Char → Bool) {p l : List Char}
    (hw : ∀ c ∈ p, q c = false) (h : containsSeq p l = true) :
    containsSeq p (l.dropWhile q) = true := by
  induction l with
  | nil => exact h
  | cons c cs ih =>
    rw [List.dropWhile_cons]
    by_cases hq : q c = true
    · rw [if_pos hq]
      apply ih
      simp only [containsSeq, Bool.or_eq_true] at h
      rcases h with h | h
      · cases p with
        | nil => exact containsSeq_nil_left cs
        | cons p0 ps =>
          simp only [startsWithB, Bool.and_eq_true, beq_iff_eq] at h
          have : q p0 = false := hw p0 (List.mem_cons_self ..)
          rw [h.1, hq] at this
          exact absurd this (by simp)
      · exact h
    · rw [if_neg hq]
      exact h

theorem containsSeq_reverse_of {p l : List Char} (h : containsSeq p l = true) :
    containsSeq p.reverse l.reverse = true := by
  rcases containsSeq_iff.mp h with ⟨s, t, rfl⟩
  exact containsSeq_iff.mpr ⟨t.reverse, s.reverse, by simp⟩

theorem containsSeq_trimWs {p l : List Char} (hw : ∀ c ∈ p, wsB c = false)
    (h : containsSeq p l = true) : containsSeq p (trimWs l) = true := by
  have h1 : containsSeq p (ltrimWs l) = true := containsSeq_dropWhile wsB hw h
  have h2 := containsSeq_reverse_of h1
  have h3 : containsSeq p.reverse ((ltrimWs l).reverse.dropWhile wsB) = true :=
    containsSeq_dropWhile wsB (by simpa using hw) h2
  have h4 := containsSeq_reverse_of h3
  simpa [trimWs, rtrimWs] using h4

theorem startsWithB_append_cons {p x y : List Char} {c : Char} (hc : c ∉ p)
    (h : startsWithB p (x ++ c :: y) = true) : startsWithB p x = true := by
  induction p generalizing x with
  | nil => simp [startsWithB]
  | cons p0 ps ih =>
    cases x with
    | nil =>
      simp only [List.nil_append, startsWithB, Bool.and_eq_true, beq_iff_eq] at h
      exact absurd (h.1 ▸ List.mem_cons_self ..) hc
    | cons a as =>
      simp only [List.cons_append, startsWithB, Bool.and_eq_true] at h ⊢
      exact ⟨h.1, ih (fun hm => hc (List.mem_cons_of_mem _ hm)) h.2⟩

theorem containsSeq_append_cons {p x y : List Char} {c : Char} (hc : c ∉ p)
    (h : containsSeq p (x ++ c :: y) = true) :
    containsSeq p x = true ∨ containsSeq p y = true := by
  induction x with
  | nil =>
    simp only [List.nil_append, containsSeq, Bool.or_eq_true] at h
    rcases h with h | h
    · cases p with
      | nil => exact Or.inl (containsSeq_nil_left [])
      | cons p0 ps =>
        simp only [startsWithB, Bool.and_eq_true, beq_iff_eq] at h
        exact absurd (h.1 ▸ List.mem_cons_self ..) hc
    · exact Or.inr h
  | cons a as ih =>
    simp only [List.cons_append, containsSeq, Bool.or_eq_true] at h ⊢
    rcases h with h | h
    · exact Or.inl (Or.inl (startsWithB_append_cons hc h))
    · rcases ih h with h' | h'
      · exact Or.inl (Or.inr h')
      · exact Or.inr h'

theorem containsSeq_append_right {p x : List Char} (y : List Char)
    (h : containsSeq p x = true) : containsSeq p (x ++ y) = true := by
  rcases containsSeq_iff.mp h with ⟨s, t, rfl⟩
  exact containsSeq_iff.mpr ⟨s, t ++ y, by simp⟩

/-! decompositions: each cleanup step returns a contiguous piece of its
input. -/

theorem ltrimWs_decomp (l : List Char) : l = l.takeWhile wsB ++ ltrimWs l :=
  (List.takeWhile_append_dropWhile wsB l).symm

theorem rtrimWs_decomp (l : List Char) :
    l = rtrimWs l ++ (l.reverse.takeWhile wsB).reverse := by
  unfold rtrimWs
  conv_lhs => rw [← l.reverse_reverse,
    ← List.takeWhile_append_dropWhile (p := wsB) (l := l.reverse)]
  rw [List.reverse_append]

theorem trimWs_decomp (l : List Char) : ∃ u v, l = u ++ trimWs l ++ v := by
  refine ⟨l.takeWhile wsB, ((ltrimWs l).reverse.takeWhile wsB).reverse, ?_⟩
  conv_lhs => rw [ltrimWs_decomp l]
  rw [trimWs, List.append_assoc]
  congr 1
  exact rtrimWs_decomp (ltrimWs l)

theorem stripLeadBar_decomp (l : List Char) : ∃ u, l = u ++ stripLeadBar l := by
  cases l with
  | nil => exact ⟨[], rfl⟩
  | cons c r =>
    by_cases hc : c = '│'
    · subst hc
      refine ⟨'│' :: r.takeWhile wsB, ?_⟩
      simp [stripLeadBar, List.takeWhile_append_dropWhile]
    · exact ⟨[], by simp [stripLeadBar, hc]⟩

theorem stripTrailBar_decomp (l : List Char) : ∃ v, l = stripTrailBar l ++ v := by
  unfold stripTrailBar
  cases hrev : l.reverse with
  | nil => exact ⟨[], by simp⟩
  | cons c r =>
    by_cases hc : c = '│'
    · subst hc
      refine ⟨(r.takeWhile wsB).reverse ++ ['│'], ?_⟩
      simp only [if_pos rfl, if_true]
      conv_lhs => rw [← l.reverse_reverse, hrev]
      rw [List.reverse_cons, ← List.append_assoc, ← List.reverse_append,
        List.takeWhile_append_dropWhile]
    · exact ⟨[], by simp [hc]⟩

/-- the content extracted by the answer accumulation is a contiguous piece of
the line. -/
theorem answerContent_decomp (l : List Char) :
    ∃ u v, l = u ++ trimWs (stripTrailBar (stripLeadBar l)) ++ v := by
  rcases stripLeadBar_decomp l with ⟨u1, h1⟩
  rcases stripTrailBar_decomp (stripLeadBar l) with ⟨v2, h2⟩
  rcases trimWs_decomp (stripTrailBar (stripLeadBar l)) with ⟨u3, v3, h3⟩
  refine ⟨u1 ++ u3, v3 ++ v2, ?_⟩
  conv_lhs => rw [h1, h2, h3]
  simp

/-! ## C1: header lines vs. emitted records in `parseSearchOutput` -/

/-- the `(type, name)` pair `parseSearchOutput` creates from a header line,
when the line matches the header pattern. -/
def headerProj (l : Line) : Option (String × String) :=
  (headerMatchFn l).map fun kn => (String.mk (lowerStr kn.1), String.mk kn.2)

/-- the records accumulated so far, including the open one. -/
def emittedS (st : SState) : List SearchResult :=
  st.results ++ st.current.toList

theorem searchStep_proj (st : SState) (line : Line) :
    (emittedS (searchStep st line)).map (fun r => (r.type, r.name)) =
      (emittedS st).map (fun r => (r.type, r.name)) ++ (headerProj line).toList := by
  unfold searchStep headerProj emittedS
  cases h : headerMatchFn line with
  | some kn => simp
  | none =>
    cases hc : st.current with
    | none => simp [hc]
    | some cur =>
      cases hf : fileMatchFn line with
      | some v => simp [hc]
      | none =>
        cases hs : simMatchFn line with
        | some tok => simp [hc]
        | none =>
          cases hd : docMatchFn line with
          | some d => simp [hc]
          | none => simp [hc]

theorem searchFold_proj (lines : List Line) :
    ∀ st : SState,
      (emittedS (lines.foldl searchStep st)).map (fun r => (r.type, r.name)) =
        (emittedS st).map (fun r => (r.type, r.name)) ++ lines.filterMap headerProj := by
  induction lines with
  | nil => intro st; simp
  | cons l ls ih =>
    intro st
    rw [List.foldl_cons, ih, searchStep_proj, List.filterMap_cons]
    cases h : headerProj l with
    | none => simp
    | some pr => simp

/-- **C1.**  For every input text, projecting the records returned by
`parseSearchOutput` to their `(type, name)` pairs yields exactly the parsed
headers of the lines matching the header pattern `<index>. <KIND>: <name>`
(`KIND ∈ {FUNCTION, CLASS}`), in line order.  Hence the parser returns
exactly N records for N header lines, in header order, and the empty sequence
for input with zero header lines. -/
theorem parseSearchOutput_headers (s : String) :
    (parseSearchOutput s).map (fun r => (r.type, r.name)) =
      (searchLines s).filterMap headerProj := by
  have h := searchFold_proj (searchLines s) ⟨[], none⟩
  simpa [parseSearchOutput, emittedS] using h

/-! ## C2: totality of the parsers

`parseSearchOutput` and `parsePRSummary` are single structurally-recursive
passes, total by construction.  The one nontrivial totality question is
`parseRagOutput`: its loop manipulates the line index (`i--`), and it writes
to `currentSource.file_path` without a null check.  Both failure modes are
modelled by `none` in `parseRagOutputRaw`; the theorem shows the result is
`some` for every input. -/

/-- the loop can only be inside a source box, or collecting code, while a
source record is open. -/
def RInv (st : RState) : Prop :=
  (st.inSourceBox = true → st.currentSource.isSome = true) ∧
  (st.collectingCode = true → st.currentSource.isSome = true)

theorem ragSourcesStep_spec (st : RState) (line trimmed : List Char)
    (hinv : RInv st) :
    ∃ st' b, ragSourcesStep st line trimmed = some (st', b) ∧ RInv st' ∧
      (b = true → st.collectingCode = true ∧ st'.collectingCode = false) := by
  unfold ragSourcesStep
  repeat' (first | split | dsimp only)
  all_goals first
    | (refine ⟨_, _, rfl, ⟨fun h => ?_, fun h => ?_⟩, fun hb => ?_⟩ <;>
        first
          | rfl
          | exact hinv.1 h
          | exact hinv.2 h
          | exact hinv.1 (by assumption)
          | exact hinv.2 (by assumption)
          | exact absurd h (by assumption)
          | exact ⟨by assumption, rfl⟩
          | simp at h
          | exact absurd (hinv.2 (by assumption)) (by simp_all)
          | simp at hb)
    | (exfalso; rcases hinv with ⟨i1, i2⟩; simp_all)

theorem ragIter_spec (st : RState) (line : Line) (hinv : RInv st) :
    ∃ st' b, ragIter st line = some (st', b) ∧ RInv st' ∧
      (b = true → st.collectingCode = true ∧ st'.collectingCode = false) := by
  unfold ragIter
  repeat' (first | split | dsimp only)
  all_goals try exact ragSourcesStep_spec st line (trimWs line) hinv
  all_goals refine ⟨_, _, rfl, ⟨fun h => ?_, fun h => ?_⟩, fun hb => ?_⟩ <;>
    first
      | exact hinv.1 h
      | exact hinv.2 h
      | simp at hb

/-- the iteration budget of `parseRagOutputRaw` suffices: each line costs at
most one ordinary step and one pushback step. -/
theorem ragLoop_total (fuel : Nat) :
    ∀ (lines : List Line) (st : RState), RInv st →
      2 * lines.length + (if st.collectingCode = true then 1 else 0) < fuel →
      (ragLoop fuel st lines).isSome = true := by
  induction fuel with
  | zero => exact fun lines st _ h => absurd h (Nat.not_lt_zero _)
  | succ f ih =>
    intro lines st hinv hfuel
    cases lines with
    | nil => rfl
    | cons line rest =>
      rw [ragLoop]
      rcases ragIter_spec st line hinv with ⟨st', b, hit, hinv', hretry⟩
      rw [hit]
      cases b with
      | false =>
        apply ih rest st' hinv'
        simp only [List.length_cons] at hfuel
        have hpad : (if st'.collectingCode = true then 1 else 0) ≤ 1 := by
          split <;> omega
        omega
      | true =>
        obtain ⟨hcc, hcc'⟩ := hretry rfl
        apply ih (line :: rest) st' hinv'
        rw [hcc] at hfuel
        rw [hcc']
        simp at hfuel ⊢
        omega

/-- **C2.**  The parsers are total on every input (however malformed): they
never throw and never return null.  `parseSearchOutput` and `parsePRSummary`
are single structurally recursive passes, total by construction, returning a
(possibly empty) list and a fully populated record respectively.  The two
ways a literal transcription of `parseRagOutput` could fail — the `i--`
index pushback looping forever, and the unguarded `currentSource.file_path`
assignment throwing on a null record — are both modelled by `none` in
`parseRagOutputRaw`; this theorem shows the parse succeeds for every input
string. -/
theorem parseRagOutputRaw_isSome (s : String) :
    (parseRagOutputRaw s).isSome = true := by
  have hinv : RInv initRState := ⟨fun h => by simp [initRState] at h,
    fun h => by simp [initRState] at h⟩
  have h := ragLoop_total (2 * (ragLines s).length + 2) (ragLines s) initRState hinv
    (by simp [initRState])
  unfold parseRagOutputRaw
  simpa using h

/-! ## C3: file-path requirement on emitted sources -/

/-- a first source box that closes without any file-path line, followed by a
second box header: the first record is pushed by the header flush. -/
def c3Input : String :=
  "Supporting Sources\n┌── 1. FUNCTION: foo ──┐\n└──┘\n┌── 2. FUNCTION: bar ──┐"

/-- **C3, counterexample.**  `parseRagOutput` can emit a source record with
no file path at all: when a closed box is followed by the next box header,
the mid-stream flush (cliIntegration.ts lines 318–326) pushes the record
without any file-path check.  The claim “a source record is only included in
the output if it has a non-empty file path” is therefore false as stated. -/
theorem parseRagOutput_pathless_source :
    (parseRagOutput c3Input).sources = [{ type := "function", name := "foo" }] ∧
    (parseRagOutput c3Input).sources.map (fun r => r.file_path) = [none] := by
  decide

/-- **C3, amended.**  Only the end-of-input flush checks the file path: an
open record whose `file_path` is absent (or empty, which is falsy in JS) is
discarded by the final flush and never reaches the output that way.  Records
flushed mid-stream by a subsequent box header are pushed without this
check. -/
theorem ragFinalize_drops_pathless (st : RState) (r : RagSource)
    (hcs : st.currentSource = some r)
    (hfp : r.file_path = none ∨ r.file_path = some "") :
    (ragFinalize st).sources = st.sources := by
  unfold ragFinalize
  rcases hfp with h | h <;> simp [hcs, h]

/-- witness for `ragFinalize_drops_pathless` at a concrete state. -/
theorem ragFinalize_drops_pathless_witness :
    (ragFinalize { initRState with
      currentSource := some { type := "function", name := "foo" } }).sources = [] :=
  ragFinalize_drops_pathless _ { type := "function", name := "foo" } rfl (Or.inl rfl)

/-! ## C8: multi-line wrapped file path -/

/-- the spec's round-trip input: the file path is wrapped across two interior
box lines, completing `foo/bar.py:10-20` at the concatenation boundary. -/
def c8Input : String :=
  "Supporting Sources\n┌── 1. FUNCTION: hello ──┐\n│ 📄 foo/ba │\n│ r.py:10-20 │\n└──┘"

/-- **C8.**  The wrapped path fragments `foo/ba` and `r.py:10-20` are
accumulated and committed as a single `path:start-end` match: the emitted
source record carries `file_path = "foo/bar.py"`, `start_line = 10`,
`end_line = 20`. -/
theorem parseRagOutput_wrapped_path :
    (parseRagOutput c8Input).sources =
      [{ type := "function", name := "hello", file_path := some "foo/bar.py"
         start_line := some 10, end_line := some 20 }] := by
  decide

/-! ## C5: the pipeline section of `_parsePRSummary` -/

def c5Input : String := "[1/2] started\nBranch: main"

/-- **C5, counterexample.**  After the pipeline section has started, a line
matching an earlier rule of the `else if` chain — here the `Branch:`
metadata prefix — is consumed by that rule and never reaches
`pipelineInfo`; the claim that every subsequent line is accumulated
verbatim into `pipelineInfo` is false as stated. -/
theorem parsePRSummary_pipeline_interrupted :
    (parsePRSummary c5Input).pipelineInfo = "[1/2] started" ∧
    (parsePRSummary c5Input).branch = "main" ∧
    containsSeq "Branch".data (parsePRSummary c5Input).pipelineInfo.data = false := by
  decide

/-- **C5, amended.**  While the pipeline section is current, a line is
appended — trimmed, newline-terminated, not verbatim — to `pipelineInfo`
provided it is not blank, not a `=`-run, and not claimed by one of the
earlier rules (the three metadata prefixes, the commit bullet, the
file-change box top, the overall-summary marker); lines matching those rules
are diverted to them instead, and a box top or overall-summary marker even
switches the section, ending the accumulation. -/
theorem prStep_pipeline_appends (st : PRState) (line : Line)
    (hsec : st.currentSection = PRSection.pipeline)
    (hne : (trimWs line).isEmpty = false)
    (heq : eqRunB (trimWs line) = false)
    (hb1 : startsWithB "Branch:".data (trimWs line) = false)
    (hb2 : startsWithB "Commits:".data (trimWs line) = false)
    (hb3 : startsWithB "Changed files:".data (trimWs line) = false)
    (hcb : commitBulletB (trimWs line) = false)
    (hbt : boxTopFileB (trimWs line) = false)
    (hov : startsWithB "📝 Overall PR Summary:".data (trimWs line) = false)
    (hpm : containsSeq "PR SUMMARIZATION PIPELINE".data (trimWs line) = false)
    (hpt : progressTagB (trimWs line) = false) :
    prStep st line =
      { st with pipelineInfo := st.pipelineInfo ++ trimWs line ++ ['\n'] } := by
  unfold prStep
  simp [hsec, hne, heq, hb1, hb2, hb3, hcb, hbt, hov, hpm, hpt]

/-- witness for `prStep_pipeline_appends` at a concrete state and line. -/
theorem prStep_pipeline_appends_witness :
    prStep { initPRState with currentSection := PRSection.pipeline } "some step".data =
      { initPRState with currentSection := PRSection.pipeline
                         pipelineInfo := "some step".data ++ ['\n'] } :=
  prStep_pipeline_appends _ _ rfl (by decide) (by decide) (by decide) (by decide)
    (by decide) (by decide) (by decide) (by decide) (by decide) (by decide)

/-! ## C6: warning lines in `_parsePRSummary` -/

def c6Input : String := "[1/1] build\n⚠️ failed to summarize one file"

/-- **C6, counterexample.**  A warning-glyph line encountered while the
pipeline section is current is appended to `pipelineInfo` (whose rule comes
earlier in the `else if` chain), not to `warnings`; the claim that warning
lines reach `warnings` regardless of the current section is false as
stated. -/
theorem parsePRSummary_warning_swallowed :
    (parsePRSummary c6Input).warnings = [] ∧
    (parsePRSummary c6Input).pipelineInfo =
      "[1/1] build\n⚠️ failed to summarize one file" := by
  decide

/-- **C6, amended.**  A line whose trimmed text starts with the warning glyph
is appended to `warnings` when the current section is neither
`overallSummary` nor `pipeline` (those sections absorb it into their own
accumulators first), provided it does not itself contain the pipeline marker
and, in a file-change box, is not a box-interior or box-bottom line. -/
theorem prStep_warning_appends (st : PRState) (line : Line)
    (hs1 : st.currentSection ≠ PRSection.overallSummary)
    (hs2 : st.currentSection ≠ PRSection.pipeline)
    (hw : startsWithB "⚠️".data (trimWs line) = true)
    (hpm : containsSeq "PR SUMMARIZATION PIPELINE".data (trimWs line) = false)
    (hl1 : line.headD ' ' ≠ '│')
    (hl2 : line.headD ' ' ≠ '└') :
    prStep st line = { st with warnings := st.warnings ++ [trimWs line] } := by
  obtain ⟨t, ht⟩ := startsWithB_iff.mp hw
  have hglyph : "⚠️".data = ['⚠', '\uFE0F'] := rfl
  rw [hglyph] at ht
  simp only [List.cons_append, List.nil_append] at ht
  unfold prStep
  rw [ht] at hpm ⊢
  simp only [List.headD_eq_head?] at hl1 hl2
  simp [eqRunB, startsWithB, commitBulletB, boxTopFileB, progressTagB, hglyph,
    hs1, hs2, hpm, hl1, hl2]

/-- witness for `prStep_warning_appends` at a concrete state and line. -/
theorem prStep_warning_appends_witness :
    prStep initPRState "⚠️ careful".data =
      { initPRState with warnings := ["⚠️ careful".data] } :=
  prStep_warning_appends _ _ (by decide) (by decide) (by decide) (by decide)
    (by decide) (by decide)

/-! ## C10: a header arriving inside an open source box -/

/-- **C10.**  While the parser is inside a source box (not in the
collecting-code sub-state), a line matching the box-header pattern starts a
new record and simply overwrites the open one: the sources list is unchanged
(`{ st with ... }` keeps `sources := st.sources`), so the previous record is
silently discarded. -/
theorem ragSourcesStep_header_discards (st : RState) (line trimmed : List Char)
    (r : RagSource) (kind name : List Char)
    (hbx : st.inSourceBox = true)
    (hcs : st.currentSource = some r)
    (hcc : st.collectingCode = false)
    (hbox : boxStartFn line = some (kind, name)) :
    ragSourcesStep st line trimmed =
      some ({ st with
        currentSource := some { type := String.mk (lowerStr kind)
                                name := String.mk (trimWs name) }
        inSourceBox := true
        collectingFilePath := false
        filePathLines := [] }, false) := by
  unfold ragSourcesStep
  rw [hbox]
  simp [flushOnBoxStart, hcs, hcc]

/-- witness for `ragSourcesStep_header_discards` at a concrete state and
header line: the open record `foo` is dropped, `bar` replaces it, and the
output list stays empty. -/
theorem ragSourcesStep_header_discards_witness :
    ragSourcesStep
      { initRState with inSourcesSection := true, inSourceBox := true
                        currentSource := some { type := "function", name := "foo" } }
      "┌── 2. FUNCTION: bar ──┐".data "┌── 2. FUNCTION: bar ──┐".data =
      some ({ initRState with inSourcesSection := true, inSourceBox := true
                              currentSource := some { type := "function", name := "bar" } }, false) :=
  ragSourcesStep_header_discards _ _ _
    { type := "function", name := "foo" } "FUNCTION".data "bar".data
    rfl rfl rfl (by decide)

/-! ## C7 and C9: record-field invariants

Both claims quantify over every record the two parsers emit; they are proved
together through one preserved predicate (`GoodSR` on search records,
`GoodRS` on RAG sources): the similarity value, when present and not NaN, is
nonnegative, and `file_path`/`start_line`/`end_line` are present together or
absent together. -/

theorem parseFloatTok_nonneg (t : List Char) (q : ℚ)
    (h : parseFloatTok t = some q) : 0 ≤ q := by
  unfold parseFloatTok at h
  dsimp only at h
  split at h
  · split at h
    · exact Option.noConfusion h
    · rw [← Option.some.inj h]; positivity
  · split at h
    · exact Option.noConfusion h
    · rw [← Option.some.inj h]; positivity

def GoodSR (r : SearchResult) : Prop :=
  (∀ q, r.similarity = some (some q) → 0 ≤ q) ∧
    (r.file_path.isSome = r.start_line.isSome ∧
     r.file_path.isSome = r.end_line.isSome)

def GoodRS (r : RagSource) : Prop :=
  (∀ q, r.similarity = some (some q) → 0 ≤ q) ∧
    (r.file_path.isSome = r.start_line.isSome ∧
     r.file_path.isSome = r.end_line.isSome)

theorem searchStep_good (st : SState) (line : Line)
    (h : ∀ r ∈ emittedS st, GoodSR r) :
    ∀ r ∈ emittedS (searchStep st line), GoodSR r := by
  unfold searchStep emittedS at *
  cases hh : headerMatchFn line with
  | some kn =>
    intro r hr
    simp only [List.append_assoc, List.mem_append] at hr
    rcases hr with hr | hr
    · exact h r (by simp [hr])
    · rcases hr with hr | hr
      · exact h r (by simp [List.mem_append, hr])
      · simp only [Option.toList_some, List.mem_singleton] at hr
        subst hr
        exact ⟨fun q hq => by simp at hq, by simp⟩
  | none =>
    cases hc : st.current with
    | none => simpa [hc] using h
    | some cur =>
      have hcur : GoodSR cur := h cur (by simp [hc])
      cases hf : fileMatchFn line with
      | some v =>
        intro r hr
        simp only [List.mem_append, Option.toList_some, List.mem_singleton] at hr
        rcases hr with hr | hr
        · exact h r (by simp [hr])
        · subst hr
          exact ⟨fun q hq => hcur.1 q hq, by simp⟩
      | none =>
        cases hs : simMatchFn line with
        | some tok =>
          intro r hr
          simp only [List.mem_append, Option.toList_some, List.mem_singleton] at hr
          rcases hr with hr | hr
          · exact h r (by simp [hr])
          · subst hr
            refine ⟨fun q hq => ?_, hcur.2⟩
            exact parseFloatTok_nonneg tok q (Option.some.inj hq)
        | none =>
          cases hd : docMatchFn line with
          | some d =>
            intro r hr
            simp only [List.mem_append, Option.toList_some, List.mem_singleton] at hr
            rcases hr with hr | hr
            · exact h r (by simp [hr])
            · subst hr
              exact ⟨fun q hq => hcur.1 q hq, hcur.2⟩
          | none => simpa [hc] using h

theorem searchFold_good (lines : List Line) :
    ∀ st : SState, (∀ r ∈ emittedS st, GoodSR r) →
      ∀ r ∈ emittedS (lines.foldl searchStep st), GoodSR r := by
  induction lines with
  | nil => exact fun st h => h
  | cons l ls ih => exact fun st h => ih (searchStep st l) (searchStep_good st l h)

theorem attachCode_good {r : RagSource} (cl : List Line) (h : GoodRS r) :
    GoodRS (attachCode r cl) := by
  unfold attachCode
  split
  · exact h
  · exact ⟨fun q hq => h.1 q hq, h.2⟩

/-- good records, everywhere in a RAG parser state. -/
def GoodR (st : RState) : Prop :=
  (∀ r ∈ st.sources, GoodRS r) ∧ (∀ r, st.currentSource = some r → GoodRS r)

theorem flushOnBoxStart_good {st : RState} (hg : GoodR st) :
    GoodR (flushOnBoxStart st) := by
  unfold flushOnBoxStart
  split
  · rename_i cur heq1 heq2
    constructor
    · intro r hr
      rcases List.mem_append.mp hr with hr | hr
      · exact hg.1 r hr
      · rw [List.mem_singleton.mp hr]
        exact attachCode_good _ (hg.2 cur heq1)
    · exact fun r hr => hg.2 r hr
  · exact hg

theorem ragSourcesStep_good (st : RState) (line trimmed : List Char)
    (hg : GoodR st) :
    ∀ st' b, ragSourcesStep st line trimmed = some (st', b) → GoodR st' := by
  unfold ragSourcesStep
  repeat' (first | split | dsimp only)
  all_goals intro st' b h
  all_goals try (exfalso; exact Option.noConfusion h)
  all_goals injection h with h2
  all_goals injection h2 with ha hb
  all_goals subst ha
  all_goals first
    | exact hg
    | -- box-header branch: mid-stream flush, then a fresh record
      (refine ⟨(flushOnBoxStart_good hg).1, fun r hr => ?_⟩
       rw [← Option.some.inj hr]
       refine ⟨fun q hq => absurd hq ?_, ?_, ?_⟩ <;> simp)
    | -- the `i--` retry flush
      (refine ⟨fun r hr => ?_, fun r hr => Option.noConfusion hr⟩
       rcases List.mem_append.mp hr with hr' | hr'
       · exact hg.1 r hr'
       · rw [List.mem_singleton.mp hr']
         exact attachCode_good _ (hg.2 _ (by assumption)))
    | -- docstring update of the open record
      (refine ⟨hg.1, fun r hr => ?_⟩
       rw [← Option.some.inj hr]
       have hcur := hg.2 _ (by assumption)
       exact ⟨fun q hq => hcur.1 q hq, hcur.2⟩)
    | -- similarity update of the open record
      (refine ⟨hg.1, fun r hr => ?_⟩
       rw [← Option.some.inj hr]
       have hcur := hg.2 _ (by assumption)
       exact ⟨fun q hq => parseFloatTok_nonneg _ q (Option.some.inj hq), hcur.2⟩)
    | -- file-path/line-range update of the open record
      (refine ⟨hg.1, fun r hr => ?_⟩
       rw [← Option.some.inj hr]
       have hcur := hg.2 _ (by assumption)
       refine ⟨fun q hq => hcur.1 q hq, ?_, ?_⟩ <;> simp)

theorem ragIter_good (st : RState) (line : Line) (hg : GoodR st) :
    ∀ st' b, ragIter st line = some (st', b) → GoodR st' := by
  unfold ragIter
  repeat' (first | split | dsimp only)
  all_goals intro st' b h
  all_goals try exact ragSourcesStep_good st line (trimWs line) hg st' b h
  all_goals injection h with h2
  all_goals injection h2 with ha hb
  all_goals subst ha
  all_goals exact hg

theorem ragLoop_good (fuel : Nat) :
    ∀ (lines : List Line) (st st' : RState), GoodR st →
      ragLoop fuel st lines = some st' → GoodR st' := by
  induction fuel with
  | zero =>
    intro lines st st' hg h
    cases lines with
    | nil => exact (Option.some.inj h) ▸ hg
    | cons l ls => exact absurd h (by simp [ragLoop])
  | succ f ih =>
    intro lines st st' hg h
    cases lines with
    | nil => exact (Option.some.inj h) ▸ hg
    | cons l ls =>
      rw [ragLoop] at h
      cases hit : ragIter st l with
      | none => rw [hit] at h; exact absurd h (by simp)
      | some p =>
        obtain ⟨st1, b⟩ := p
        rw [hit] at h
        have hg1 := ragIter_good st l hg st1 b hit
        cases b with
        | false => exact ih ls st1 st' hg1 h
        | true => exact ih (l :: ls) st1 st' hg1 h

theorem ragFinalize_good {st : RState} (hg : GoodR st) :
    ∀ r ∈ (ragFinalize st).sources, GoodRS r := by
  unfold ragFinalize
  repeat' (first | split | dsimp only)
  all_goals try exact hg.1
  all_goals intro r hr
  all_goals rcases List.mem_append.mp hr with hr' | hr'
  all_goals try exact hg.1 r hr'
  all_goals rw [List.mem_singleton.mp hr']
  all_goals exact attachCode_good _ (hg.2 _ (by assumption))

theorem parseRagOutput_good (t : String) :
    ∀ r ∈ (parseRagOutput t).sources, GoodRS r := by
  unfold parseRagOutput parseRagOutputRaw
  cases hres : ragLoop (2 * (ragLines t).length + 2) initRState (ragLines t) with
  | none => simp [hres]
  | some stf =>
    have hg : GoodR stf :=
      ragLoop_good _ _ _ _ ⟨by simp [initRState], by simp [initRState]⟩ hres
    simpa [hres] using ragFinalize_good hg

/-- the search input of the C7 counterexample: a similarity above 1. -/
def c7Input : String := "1. FUNCTION: foo\n📊 Similarity: 2"

/-- **C7, counterexample.**  `parseSearchOutput` stores whatever decimal the
similarity line carries, with no clamping or validation: on a line
`📊 Similarity: 2` the emitted record has similarity 2, outside [0, 1].
The claim that a present similarity always lies in [0, 1] is false as
stated. -/
theorem parseSearchOutput_sim_above_one :
    (parseSearchOutput c7Input).map (fun r => r.similarity) =
      [some (some (2 : ℚ))] ∧ ¬((2 : ℚ) ≤ 1) := by
  constructor
  · decide
  · norm_num

/-- **C7, amended.**  A present, non-NaN similarity value is always
nonnegative (it is parsed from a digits-and-dots token), but it is not
bounded by 1; the parsers guarantee only `0 ≤ similarity`.  (NaN — `none`
in the model — is possible, from `parseFloat` of a token like `"."`.) -/
theorem similarity_nonneg (s t : String) :
    (∀ r ∈ parseSearchOutput s, ∀ q, r.similarity = some (some q) → 0 ≤ q) ∧
    (∀ r ∈ (parseRagOutput t).sources, ∀ q, r.similarity = some (some q) → 0 ≤ q) := by
  constructor
  · intro r hr
    have hgood := searchFold_good (searchLines s) ⟨[], none⟩ (by simp [emittedS]) r
      (by simpa [parseSearchOutput, emittedS] using hr)
    exact hgood.1
  · intro r hr
    exact (parseRagOutput_good t r hr).1

def c7WitnessInput : String := "1. FUNCTION: foo\n📊 Similarity: 1"

/-- witness for `similarity_nonneg` at a concrete parsed record. -/
theorem similarity_nonneg_witness :
    ({ type := "function", name := "foo",
       similarity := some (some (1 : ℚ)) } : SearchResult) ∈
        parseSearchOutput c7WitnessInput ∧
      (0 : ℚ) ≤ (1 : ℚ) :=
  ⟨by decide, (similarity_nonneg c7WitnessInput "").1
    { type := "function", name := "foo", similarity := some (some (1 : ℚ)) }
    (by decide) 1 (by decide)⟩

/-- **C9.**  In every record emitted by `parseSearchOutput` and every source
emitted by `parseRagOutput`, the fields `file_path`, `start_line` and
`end_line` are present together or absent together: they are only ever
assigned jointly, from a single completed `path:start-end` match. -/
theorem fields_assigned_together (s t : String) :
    (∀ r ∈ parseSearchOutput s,
      r.file_path.isSome = r.start_line.isSome ∧
      r.file_path.isSome = r.end_line.isSome) ∧
    (∀ r ∈ (parseRagOutput t).sources,
      r.file_path.isSome = r.start_line.isSome ∧
      r.file_path.isSome = r.end_line.isSome) := by
  constructor
  · intro r hr
    have hgood := searchFold_good (searchLines s) ⟨[], none⟩ (by simp [emittedS]) r
      (by simpa [parseSearchOutput, emittedS] using hr)
    exact hgood.2
  · intro r hr
    exact (parseRagOutput_good t r hr).2

def c9WitnessInput : String := "1. CLASS: Bar\n📄 a/b.py:3-9"

/-- witness for `fields_assigned_together` at a concrete parsed record. -/
theorem fields_assigned_together_witness :
    ({ type := "class", name := "Bar", file_path := some "a/b.py"
       start_line := some 3, end_line := some 9 } : SearchResult) ∈
        parseSearchOutput c9WitnessInput ∧
      ((some "a/b.py" : Option String).isSome = (some 3 : Option Nat).isSome ∧
       (some "a/b.py" : Option String).isSome = (some 9 : Option Nat).isSome) :=
  ⟨by decide, (fields_assigned_together c9WitnessInput "").1
    { type := "class", name := "Bar", file_path := some "a/b.py"
      start_line := some 3, end_line := some 9 } (by decide)⟩

/-! ## C4: the RAG answer text -/

def c4Input : String := "💡\n│ a │ b │"

/-- **C4, counterexample.**  The answer accumulation only strips one leading
and one trailing box bar from each line (`replace(/^│\\s*%/, ...)`-style):
an interior `│` survives into the answer text, so the claim that the answer
never contains box-drawing border characters is false as stated. -/
theorem parseRagOutput_answer_with_bar :
    (parseRagOutput c4Input).answer = "a │ b" ∧
    '│' ∈ (parseRagOutput c4Input).answer.data := by
  decide

/-- every source-section step leaves the answer unchanged. -/
theorem flushOnBoxStart_answer (st : RState) :
    (flushOnBoxStart st).answer = st.answer := by
  unfold flushOnBoxStart
  split <;> rfl

theorem ragSourcesStep_answer (st : RState) (line trimmed : List Char) :
    ∀ st' b, ragSourcesStep st line trimmed = some (st', b) →
      st'.answer = st.answer := by
  unfold ragSourcesStep
  repeat' (first | split | dsimp only)
  all_goals intro st' b h
  all_goals try (exfalso; exact Option.noConfusion h)
  all_goals injection h with h2
  all_goals injection h2 with ha hb
  all_goals subst ha
  all_goals first
    | rfl
    | exact flushOnBoxStart_answer st

/-- the answer invariant: no `Answer:` occurrence, and the accumulated text
is empty or ends in the separating space. -/
def AnsInv (st : RState) : Prop :=
  containsSeq "Answer:".data st.answer = false ∧
    (st.answer = [] ∨ ∃ q, st.answer = q ++ [' '])

/-- appending one clean piece plus the separator preserves the invariant. -/
theorem ansAppend (p ans cont : List Char) (hp : p ≠ []) (hsp : ' ' ∉ p)
    (hans : containsSeq p ans = false)
    (hlast : ans = [] ∨ ∃ q, ans = q ++ [' '])
    (hcont : containsSeq p cont = false) :
    containsSeq p (ans ++ cont ++ [' ']) = false ∧
      ∃ q, ans ++ cont ++ [' '] = q ++ [' '] := by
  refine ⟨?_, ans ++ cont, rfl⟩
  by_contra hcc
  have hcc' : containsSeq p (ans ++ cont ++ [' ']) = true := by
    simpa using hcc
  have hconsp : ∀ x, containsSeq p (x ++ [' ']) = true → containsSeq p x = true := by
    intro x hx
    have : containsSeq p (x ++ ' ' :: ([] : List Char)) = true := by simpa using hx
    rcases containsSeq_append_cons hsp this with h' | h'
    · exact h'
    · exact absurd h' (by simp [containsSeq_nil_false hp])
  rcases hlast with rfl | ⟨q, rfl⟩
  · have h1 : containsSeq p cont = true := hconsp cont (by simpa using hcc')
    exact absurd h1 (by simp [hcont])
  · have heq : q ++ [' '] ++ cont ++ [' '] = q ++ ' ' :: (cont ++ [' ']) := by simp
    rw [heq] at hcc'
    rcases containsSeq_append_cons hsp hcc' with h' | h'
    · have : containsSeq p (q ++ [' ']) = true := containsSeq_append_right _ h'
      exact absurd this (by simp [hans])
    · have h1 : containsSeq p cont = true := hconsp cont h'
      exact absurd h1 (by simp [hcont])

/-- if the trimmed line has no `Answer:` occurrence, neither has the content
extracted from it by the answer accumulation. -/
theorem contentNoMarker (line : List Char)
    (h : containsSeq "Answer:".data (trimWs line) = false) :
    containsSeq "Answer:".data (trimWs (stripTrailBar (stripLeadBar line))) = false := by
  by_contra hc
  have hc' : containsSeq "Answer:".data
      (trimWs (stripTrailBar (stripLeadBar line))) = true := by simpa using hc
  rcases answerContent_decomp line with ⟨u, v, hd⟩
  have h1 : containsSeq "Answer:".data line = true := by
    rw [hd]
    exact containsSeq_of_decomp hc' u v
  have h2 := containsSeq_trimWs (by decide) h1
  exact absurd h2 (by simp [h])

theorem ragIter_ansInv (st : RState) (line : Line) (hai : AnsInv st) :
    ∀ st' b, ragIter st line = some (st', b) → AnsInv st' := by
  intro st' b h
  unfold ragIter at h
  by_cases h1 : ((trimWs line).isEmpty && !st.collectingCode) = true
  · rw [if_pos h1] at h
    injection h with h2; injection h2 with ha hb; subst ha; exact hai
  · rw [if_neg h1] at h
    by_cases h2 : ((containsSeq "💡".data (trimWs line) ||
        containsSeq "Answer:".data (trimWs line)) && !st.inSourcesSection) = true
    · rw [if_pos h2] at h
      injection h with h2'; injection h2' with ha hb; subst ha; exact hai
    · rw [if_neg h2] at h
      by_cases h3 : (startsWithB "Code Search - RAG Mode Query:".data (trimWs line) ||
          startsWithB "Query:".data (trimWs line)) = true
      · rw [if_pos h3] at h
        injection h with h2'; injection h2' with ha hb; subst ha; exact hai
      · rw [if_neg h3] at h
        by_cases h4 : containsSeq "Supporting Sources".data (trimWs line) = true
        · rw [if_pos h4] at h
          injection h with h2'; injection h2' with ha hb; subst ha; exact hai
        · rw [if_neg h4] at h
          by_cases h5 : st.inSourcesSection = true
          · rw [if_pos h5] at h
            have hans := ragSourcesStep_answer st line (trimWs line) st' b h
            exact ⟨by rw [hans]; exact hai.1, by rw [hans]; exact hai.2⟩
          · rw [if_neg h5] at h
            by_cases h6 : (st.inAnswerSection && !st.inSourcesSection) = true
            · rw [if_pos h6] at h
              have hs5 : st.inSourcesSection = false := by
                simpa using h5
              have hnoans : containsSeq "Answer:".data (trimWs line) = false := by
                simp only [hs5, Bool.not_false, Bool.and_true, Bool.or_eq_true] at h2
                by_contra hcc
                exact h2 (Or.inr (by simpa using hcc))
              have hcontent := contentNoMarker line hnoans
              injection h with h2'; injection h2' with ha hb; subst ha
              dsimp only at *
              split
              all_goals split
              all_goals first
                | exact hai
                | (constructor
                   · exact (ansAppend _ _ _ (by decide) (by decide)
                       hai.1 hai.2 hcontent).1
                   · exact Or.inr (ansAppend _ _ _ (by decide) (by decide)
                       hai.1 hai.2 hcontent).2)
            · rw [if_neg h6] at h
              injection h with h2'; injection h2' with ha hb; subst ha; exact hai

theorem ragLoop_ansInv (fuel : Nat) :
    ∀ (lines : List Line) (st st' : RState), AnsInv st →
      ragLoop fuel st lines = some st' → AnsInv st' := by
  induction fuel with
  | zero =>
    intro lines st st' hai h
    cases lines with
    | nil => exact (Option.some.inj h) ▸ hai
    | cons l ls => exact absurd h (by simp [ragLoop])
  | succ f ih =>
    intro lines st st' hai h
    cases lines with
    | nil => exact (Option.some.inj h) ▸ hai
    | cons l ls =>
      rw [ragLoop] at h
      cases hit : ragIter st l with
      | none => rw [hit] at h; exact absurd h (by simp)
      | some p =>
        obtain ⟨st1, b⟩ := p
        rw [hit] at h
        have hai1 := ragIter_ansInv st l hai st1 b hit
        cases b with
        | false => exact ih ls st1 st' hai1 h
        | true => exact ih (l :: ls) st1 st' hai1 h

/-- **C4, amended.**  The answer text returned by `parseRagOutput` never
contains the literal substring `Answer:` — any line containing it is
swallowed by the answer-marker check before accumulation, the check survives
trimming because the marker contains no whitespace, and pieces are joined by
spaces so no occurrence can span a boundary.  Box-drawing characters,
however, can survive into the answer (see the counterexample), so the
original claim holds only for the `Answer:` part. -/
theorem parseRagOutput_answer_no_marker (s : String) :
    containsSeq "Answer:".data (parseRagOutput s).answer.data = false := by
  unfold parseRagOutput parseRagOutputRaw
  cases hres : ragLoop (2 * (ragLines s).length + 2) initRState (ragLines s) with
  | none => simp [hres]; decide
  | some stf =>
    have hai : AnsInv stf :=
      ragLoop_ansInv _ _ _ _ ⟨by decide, Or.inl rfl⟩ hres
    have hfin : (ragFinalize stf).answer.data = trimWs stf.answer := rfl
    simp only [hres, Option.map_some', Option.getD_some]
    rw [hfin]
    by_contra hc
    have hc' : containsSeq "Answer:".data (trimWs stf.answer) = true := by
      simpa using hc
    rcases trimWs_decomp stf.answer with ⟨u, v, hd⟩
    have h1 : containsSeq "Answer:".data stf.answer = true := by
      rw [hd]
      exact containsSeq_of_decomp hc' u v
    exact absurd h1 (by simp [hai.1])

end DevCopilot
